import Mathlib

/-!
Verification of the sentiment-vs-trading analysis engine.

This file gives a shallow embedding of the core data pipeline of the
repository (data_processor.py, analysis.py, utils.py) and proves the
specification claims about it.  Python floats are modelled by the exact
rationals, with NaN rendered as Option.none wherever the code can produce
one (sample std of fewer than two points, Pearson correlation of a
degenerate sample); values that genuinely involve a square root live in the
reals.
-/

namespace TraderInsights

/-- Calendar date, the value produced by the pandas dt.date accessor. -/
@[ext]
structure Date where
  year : Nat
  month : Nat
  day : Nat
deriving DecidableEq, Repr

/-- Strict lexicographic comparison on dates, the order pandas uses when it
sorts group keys. -/
def Date.blt (a b : Date) : Bool :=
  decide (a.year < b.year) ||
    (decide (a.year = b.year) &&
      (decide (a.month < b.month) ||
        (decide (a.month = b.month) && decide (a.day < b.day))))

theorem Date.blt_iff (a b : Date) :
    Date.blt a b = true ↔
      a.year < b.year ∨ (a.year = b.year ∧
        (a.month < b.month ∨ (a.month = b.month ∧ a.day < b.day))) := by
  simp [Date.blt]

theorem Date.blt_trans {a b c : Date} (h1 : Date.blt a b = true)
    (h2 : Date.blt b c = true) : Date.blt a c = true := by
  rw [Date.blt_iff] at h1 h2 ⊢; omega

theorem Date.blt_irrefl (a : Date) : Date.blt a a = false := by
  simp [Date.blt]

theorem Date.blt_total {a b : Date} (h1 : Date.blt a b = false) (h2 : a ≠ b) :
    Date.blt b a = true := by
  have h3 : ¬(a.year = b.year ∧ a.month = b.month ∧ a.day = b.day) := by
    intro hc
    exact h2 (Date.ext hc.1 hc.2.1 hc.2.2)
  rw [Date.blt_iff]
  rw [← Bool.not_eq_true, Date.blt_iff] at h1
  push_neg at h1
  omega

theorem Date.ne_of_blt {a b : Date} (h : Date.blt a b = true) : a ≠ b := by
  intro he; subst he; rw [Date.blt_irrefl] at h; exact Bool.noConfusion h

/-- Number of days of a month, with the Gregorian leap rule; used to decide
whether a day-month-year timestamp parses (pandas rejects 31-02-2024). -/
def daysInMonth (y m : Nat) : Nat :=
  if m = 2 then
    if y % 4 = 0 ∧ (y % 100 ≠ 0 ∨ y % 400 = 0) then 29 else 28
  else if m = 4 ∨ m = 6 ∨ m = 9 ∨ m = 11 then 30
  else 31

/-- Splitting of a character list at a separator character (the string
split used while parsing a timestamp). -/
def splitOnChar (c : Char) : List Char → List (List Char)
  | [] => [[]]
  | x :: xs =>
    let r := splitOnChar c xs
    if x = c then [] :: r
    else
      match r with
      | [] => [[x]]
      | y :: ys => (x :: y) :: ys

/-- Decimal value of a nonempty all-digit character group; none otherwise. -/
def digitsToNat (l : List Char) : Option Nat :=
  if l = [] then none
  else if l.all Char.isDigit then
    some (l.foldl (fun acc c => acc * 10 + (c.toNat - 48)) 0)
  else none

/-- Parsing of the local-time string format (strftime pattern day-month-year
hour:minute, as in pd.to_datetime with errors=coerce followed by dt.date):
an unparseable string yields none, the embedding of NaT. -/
def parseTimestampIST (s : String) : Option Date :=
  match splitOnChar ' ' s.data with
  | [dpart, tpart] =>
    match splitOnChar '-' dpart, splitOnChar ':' tpart with
    | [ds, ms, ys], [hs, mins] =>
      match digitsToNat ds, digitsToNat ms, digitsToNat ys,
          digitsToNat hs, digitsToNat mins with
      | some d, some m, some y, some hh, some mm =>
          if 1 ≤ m ∧ m ≤ 12 ∧ 1 ≤ d ∧ d ≤ daysInMonth y m ∧ hh ≤ 23 ∧ mm ≤ 59
          then some ⟨y, m, d⟩ else none
      | _, _, _, _, _ => none
    | _, _ => none
  | _ => none

/-- Civil date of a count of days since 1970-01-01 (the classic
days-to-civil conversion used by datetime libraries). -/
def civilFromDays (z0 : Int) : Date :=
  let z : Int := z0 + 719468
  let era : Int := Int.fdiv z 146097
  let doe : Nat := (z - era * 146097).toNat
  let yoe : Nat := (doe - doe / 1460 + doe / 36524 - doe / 146096) / 365
  let doy : Nat := doe - (365 * yoe + yoe / 4 - yoe / 100)
  let mp : Nat := (5 * doy + 2) / 153
  let d : Nat := doy - (153 * mp + 2) / 5 + 1
  let m : Nat := if mp < 10 then mp + 3 else mp - 9
  let y : Int := (yoe : Int) + era * 400 + (if m ≤ 2 then 1 else 0)
  ⟨y.toNat, m, d⟩

/-- Date of an epoch-seconds timestamp (pd.to_datetime with unit=s followed
by dt.date). -/
def epochToDate (s : Int) : Date :=
  civilFromDays (Int.fdiv s 86400)

/-- Fixed fallback date assigned when a trade table has no timestamp column
at all (the string constant 2024-12-02 in the source). -/
def fallbackDate : Date := ⟨2024, 12, 2⟩

/-- Row of a trade table.  tsIST is the cell of the local-time string
column, tsEpoch the cell of the numeric epoch column (none embeds NaN) and
date the cell of a precomputed date column; each is meaningful only when
the corresponding table-level column flag is set. -/
structure TradeRow where
  side : String
  closedPnl : ℚ
  sizeUsd : ℚ
  fee : ℚ
  tsIST : String
  tsEpoch : Option Int
  date : Option Date
deriving DecidableEq, Repr

/-- Trade table: the column-presence flags drive the branching of the
source (column-membership tests on the dataframe). -/
structure TradeTable where
  hasDate : Bool
  hasTsIST : Bool
  hasTsEpoch : Bool
  rows : List TradeRow
deriving DecidableEq, Repr

/-- Day derived for a row by DataProcessor cleaning: the local-time string
column takes precedence, then the epoch column, else the fixed fallback;
parse failures propagate as none. -/
def cleanRowDatetime (t : TradeTable) (r : TradeRow) : Option Date :=
  if t.hasTsIST then parseTimestampIST r.tsIST
  else if t.hasTsEpoch then r.tsEpoch.map epochToDate
  else some fallbackDate

/-- Day used for a row by the analyzer merge: an existing date column is
used as is, otherwise the same derivation as the cleaning step. -/
def mergeRowDate (t : TradeTable) (r : TradeRow) : Option Date :=
  if t.hasDate then r.date
  else if t.hasTsIST then parseTimestampIST r.tsIST
  else if t.hasTsEpoch then r.tsEpoch.map epochToDate
  else some fallbackDate

/-- Row of the sentiment (fear and greed) table after loading. -/
structure FgRow where
  date : Date
  value : ℚ
  classification : String
deriving DecidableEq, Repr

/-- Row of the merged table: a trade row together with its date key and the
sentiment columns brought in by the left join (none embeds NaN for a day
with no same-day sentiment record). -/
structure MergedRow where
  side : String
  closedPnl : ℚ
  sizeUsd : ℚ
  fee : ℚ
  date : Option Date
  sentimentScore : Option ℚ
  sentimentCategory : Option String
deriving DecidableEq, Repr

/-- Left join of dated trade rows with the sentiment table on the date key,
as pd.merge with how=left: a row with no match keeps NaN sentiment, a row
with several matches (duplicate sentiment dates) is duplicated, and a null
date matches nothing. -/
def leftJoinFg (fg : List FgRow) (rows : List (TradeRow × Option Date)) :
    List MergedRow :=
  rows.flatMap (fun rd =>
    match fg.filter (fun g => decide (some g.date = rd.2)) with
    | [] => [⟨rd.1.side, rd.1.closedPnl, rd.1.sizeUsd, rd.1.fee, rd.2, none, none⟩]
    | ms => ms.map (fun g =>
        ⟨rd.1.side, rd.1.closedPnl, rd.1.sizeUsd, rd.1.fee, rd.2,
          some g.value, some g.classification⟩))

/-- TradingAnalyzer merge step: derive the date key per row (unless the
table already carries one) and left-join the sentiment columns. -/
def mergeByDate (fg : List FgRow) (t : TradeTable) : List MergedRow :=
  leftJoinFg fg (t.rows.map (fun r => (r, mergeRowDate t r)))

/-- DataProcessor merge step: the cleaned trade table always carries a date
column, which is joined against the sentiment table; invoking it with
either table absent raises. -/
def mergeDatasets (fgData : Option (List FgRow)) (tData : Option TradeTable) :
    Except String (List MergedRow) :=
  match fgData, tData with
  | some fg, some t => .ok (leftJoinFg fg (t.rows.map (fun r => (r, r.date))))
  | _, _ => .error "Both datasets must be loaded before merging"

/-- Insertion into a strictly ascending list of distinct keys, dropping
duplicates; used to model the sorted distinct group keys of groupby. -/
def insertKey (d : Date) : List Date → List Date
  | [] => [d]
  | x :: xs =>
    if Date.blt d x then d :: x :: xs
    else if d = x then x :: xs
    else x :: insertKey d xs

/-- Sorted distinct date keys of a list of dates (pandas groupby sorts the
group keys ascending and keeps each key once). -/
def sortedKeys (ds : List Date) : List Date := ds.foldr insertKey []

/-- Rows of the merged table that fall in the group of a date key (a null
date belongs to no group, as groupby drops NaN keys). -/
def groupRows (merged : List MergedRow) (k : Date) : List MergedRow :=
  merged.filter (fun r => decide (r.date = some k))

/-- Mean of a list, as the pandas mean of a group column (groups are
nonempty wherever this is used). -/
def listMean (l : List ℚ) : ℚ := l.sum / l.length

/-- Sample variance (delta degrees of freedom 1).  The source keeps the
sample standard deviation, the square root of this value; none embeds the
NaN that pandas std yields on fewer than two observations.  No claim reads
the stored pnl spread, only whether this is zero or undefined. -/
def sampleVarList (l : List ℚ) : Option ℚ :=
  if l.length ≤ 1 then none
  else some ((l.map (fun x => (x - listMean l) ^ 2)).sum / ((l.length : ℚ) - 1))

/-- First non-null value of a column, the semantics of the groupby
aggregator named first. -/
def firstSome {α : Type} : List (Option α) → Option α
  | [] => none
  | some a :: _ => some a
  | none :: xs => firstSome xs

/-- One row of the daily aggregate table (the flattened column set of
TradingAnalyzer daily aggregation).  cumulativePnl is filled by a later
pass, matching the column being added after the groupby. -/
structure DailyRow where
  date : Date
  totalPnl : ℚ
  avgPnl : ℚ
  tradeCount : Nat
  pnlVar : Option ℚ
  totalVolume : ℚ
  avgVolume : ℚ
  sentimentScore : Option ℚ
  sentimentCategory : Option String
  buyCount : Nat
  totalFees : ℚ
  sellCount : Int
  buyRatio : ℚ
  cumulativePnl : ℚ
  winTrades : Nat
  winRate : ℚ
deriving DecidableEq, Repr

/-- Per-key aggregation of the merged table: the aggregation dictionary of
the source (sum, mean, count, std, first, the BUY-count lambda) plus the
derived columns sell count, buy ratio, win trades and win rate, which only
depend on the group.  cumulativePnl is initialised to zero and set by the
cumulative pass. -/
def baseAgg (merged : List MergedRow) (k : Date) : DailyRow :=
  let g := groupRows merged k
  let pnls := g.map MergedRow.closedPnl
  let usds := g.map MergedRow.sizeUsd
  let n := g.length
  let buyCount := (g.filter (fun r => decide (r.side = "BUY"))).length
  let winTrades := (g.filter (fun r => decide (0 < r.closedPnl))).length
  { date := k
    totalPnl := pnls.sum
    avgPnl := listMean pnls
    tradeCount := n
    pnlVar := sampleVarList pnls
    totalVolume := usds.sum
    avgVolume := listMean usds
    sentimentScore := firstSome (g.map MergedRow.sentimentScore)
    sentimentCategory := firstSome (g.map MergedRow.sentimentCategory)
    buyCount := buyCount
    totalFees := (g.map MergedRow.fee).sum
    sellCount := (n : Int) - (buyCount : Int)
    buyRatio := (buyCount : ℚ) / (n : ℚ)
    cumulativePnl := 0
    winTrades := winTrades
    winRate := (winTrades : ℚ) / (n : ℚ) * 100 }

/-- Cumulative-sum pass over the aggregate rows in key order (the cumsum of
the total pnl column). -/
def addCumulative (acc : ℚ) : List DailyRow → List DailyRow
  | [] => []
  | r :: rs =>
    { r with cumulativePnl := acc + r.totalPnl } ::
      addCumulative (acc + r.totalPnl) rs

/-- Forward-fill pass over the sentiment columns in key order (the ffill of
the source): a null cell inherits the carried value of the most recent
earlier row. -/
def ffillSentiment (carryS : Option ℚ) (carryC : Option String) :
    List DailyRow → List DailyRow
  | [] => []
  | r :: rs =>
    let s := match r.sentimentScore with | some v => some v | none => carryS
    let c := match r.sentimentCategory with | some v => some v | none => carryC
    { r with sentimentScore := s, sentimentCategory := c } ::
      ffillSentiment s c rs

/-- Full daily aggregation of TradingAnalyzer: merge, group by date over
the sorted distinct non-null date keys, aggregate per key, attach the
cumulative pnl, and forward-fill the sentiment columns. -/
def createDailyAggregates (fg : List FgRow) (t : TradeTable) : List DailyRow :=
  let merged := mergeByDate fg t
  let keys := sortedKeys (merged.filterMap MergedRow.date)
  ffillSentiment none none (addCumulative 0 (keys.map (baseAgg merged)))

/-- Rows kept by dropna on the sentiment score column: exactly the daily
rows whose (forward-filled) sentiment is non-null. -/
def dropnaSentiment (daily : List DailyRow) : List DailyRow :=
  daily.filter (fun r => r.sentimentScore.isSome)

/-- Pearson correlation of two aligned series as pandas Series.corr
computes it: NaN (none) on fewer than two points or a zero-variance side,
otherwise the centred cross sum over the root of the product of the
centred square sums. -/
noncomputable def seriesCorr (xs ys : List ℚ) : Option ℝ :=
  if xs.length < 2 then none
  else
    let mx := listMean xs
    let my := listMean ys
    let sxx : ℚ := (xs.map (fun x => (x - mx) ^ 2)).sum
    let syy : ℚ := (ys.map (fun y => (y - my) ^ 2)).sum
    let sxy : ℚ := ((xs.zip ys).map (fun p => (p.1 - mx) * (p.2 - my))).sum
    if sxx = 0 ∨ syy = 0 then none
    else some ((sxy : ℝ) / Real.sqrt ((sxx : ℝ) * (syy : ℝ)))

/-- Correlation operation of TradingAnalyzer: an empty map when no daily
data exists, the all-zero map when no row survives the sentiment dropna,
otherwise the four Pearson correlations of the surviving rows. -/
noncomputable def calculateSentimentTradingCorrelations
    (dailyData : Option (List DailyRow)) : List (String × Option ℝ) :=
  match dailyData with
  | none => []
  | some daily =>
    let clean := dropnaSentiment daily
    if clean.length = 0 then
      [("sentiment_pnl", some 0), ("sentiment_volume", some 0),
       ("sentiment_trades", some 0), ("sentiment_winrate", some 0)]
    else
      let s := clean.map (fun r => r.sentimentScore.getD 0)
      [("sentiment_pnl", seriesCorr s (clean.map DailyRow.totalPnl)),
       ("sentiment_volume", seriesCorr s (clean.map DailyRow.totalVolume)),
       ("sentiment_trades", seriesCorr s (clean.map (fun r => (r.tradeCount : ℚ)))),
       ("sentiment_winrate", seriesCorr s (clean.map DailyRow.winRate))]

/-- Sharpe ratio of a daily pnl series: zero for an empty series or a
float-zero standard deviation, otherwise the annualized excess mean over
the standard deviation; a NaN standard deviation (single observation)
propagates to a NaN result. -/
noncomputable def sharpeRatio (returns : List ℚ) (riskFreeRate : ℚ) : Option ℝ :=
  if returns.length = 0 ∨ sampleVarList returns = some 0 then some 0
  else
    match sampleVarList returns with
    | none => none
    | some v =>
        some (((listMean (returns.map (fun x => x - riskFreeRate / 252)) : ℚ) : ℝ)
          / Real.sqrt (v : ℝ) * Real.sqrt 252)

/-- Running maxima of a series (the expanding max of the source). -/
def runningMaxAux (m : ℚ) : List ℚ → List ℚ
  | [] => []
  | x :: xs => max m x :: runningMaxAux (max m x) xs

/-- Running maxima of a series, first element included. -/
def runningMax : List ℚ → List ℚ
  | [] => []
  | x :: xs => x :: runningMaxAux x xs

/-- Minimum of a nonempty list (the pandas min of a series); zero on the
empty list, which no caller reaches. -/
def listMin : List ℚ → ℚ
  | [] => 0
  | x :: xs => xs.foldl min x

/-- Drawdown series: distance of the cumulative series below its running
maximum. -/
def drawdowns (cumulative : List ℚ) : List ℚ :=
  List.zipWith (fun c m => c - m) cumulative (runningMax cumulative)

/-- Maximum drawdown of a cumulative series: zero on the empty series,
otherwise the minimum of the drawdown series. -/
def maxDrawdown (cumulative : List ℚ) : ℚ :=
  if cumulative.length = 0 then 0
  else listMin (drawdowns cumulative)

/-- Rolling correlation values: position i holds the Pearson correlation
of the last window points, NaN while fewer than window points have been
seen (the default min_periods of a rolling window). -/
noncomputable def rollingCorrValues (s1 s2 : List ℚ) (window : Nat) :
    List (Option ℝ) :=
  (List.range s1.length).map (fun i =>
    if i + 1 < window then none
    else seriesCorr ((s1.drop (i + 1 - window)).take window)
      ((s2.drop (i + 1 - window)).take window))

/-- Utility rolling_correlation: raises on a length mismatch, returns an
all-NaN series of the input length when the input is shorter than the
window, otherwise the rolling correlation series. -/
noncomputable def rollingCorrelation (s1 s2 : List ℚ) (window : Nat) :
    Except String (List (Option ℝ)) :=
  if s1.length ≠ s2.length then .error "Series must have the same length"
  else if s1.length < window then .ok (List.replicate s1.length none)
  else .ok (rollingCorrValues s1 s2 window)

/-- Example inputs for the claim about the correlation input view: one
sentiment record on the first day, trades on the first and the second day,
so the second day only obtains sentiment by forward fill. -/
def exC1fg : List FgRow := [⟨⟨2024, 1, 1⟩, 50, "Neutral"⟩]

/-- Trade table of the correlation-input example (dates precomputed, as
after cleaning). -/
def exC1t : TradeTable :=
  ⟨true, false, false,
    [⟨"BUY", 10, 100, 1, "", none, some ⟨2024, 1, 1⟩⟩,
     ⟨"SELL", -5, 200, 1, "", none, some ⟨2024, 1, 2⟩⟩]⟩

/-- Sentiment table of the single-aligned-point scenario of the
specification (one extreme-fear entry). -/
def exC3fg : List FgRow := [⟨⟨2024, 1, 5⟩, 15, "Extreme Fear"⟩]

/-- Trade table of the single-aligned-point scenario: one trade on the
sentiment day. -/
def exC3t : TradeTable :=
  ⟨true, false, false, [⟨"BUY", 10, 100, 1, "", none, some ⟨2024, 1, 5⟩⟩]⟩

/-- Sentiment table of the conservation example. -/
def exC4fg : List FgRow := [⟨⟨2024, 2, 1⟩, 30, "Fear"⟩]

/-- Trade table of the conservation example: three trades over two days. -/
def exC4t : TradeTable :=
  ⟨true, false, false,
    [⟨"BUY", 7, 10, 0, "", none, some ⟨2024, 2, 1⟩⟩,
     ⟨"SELL", -3, 10, 0, "", none, some ⟨2024, 2, 1⟩⟩,
     ⟨"BUY", 2, 10, 0, "", none, some ⟨2024, 2, 2⟩⟩]⟩

/-- Sentiment table of the per-day-counts example. -/
def exC5fg : List FgRow := [⟨⟨2024, 3, 1⟩, 60, "Greed"⟩]

/-- Trade table of the per-day-counts example: two buys and one sell on
one day. -/
def exC5t : TradeTable :=
  ⟨true, false, false,
    [⟨"BUY", 10, 10, 0, "", none, some ⟨2024, 3, 1⟩⟩,
     ⟨"BUY", 5, 10, 0, "", none, some ⟨2024, 3, 1⟩⟩,
     ⟨"SELL", -20, 10, 0, "", none, some ⟨2024, 3, 1⟩⟩]⟩

/-- Sentiment table of the cumulative-sum example. -/
def exC8fg : List FgRow := [⟨⟨2024, 4, 1⟩, 40, "Fear"⟩]

/-- Trade table of the cumulative-sum example: trades on two distinct
days, given out of order. -/
def exC8t : TradeTable :=
  ⟨true, false, false,
    [⟨"SELL", -2, 10, 0, "", none, some ⟨2024, 4, 2⟩⟩,
     ⟨"BUY", 6, 10, 0, "", none, some ⟨2024, 4, 1⟩⟩]⟩

/-- Projection of the per-day count fields, used to carry them through the
cumulative and forward-fill passes. -/
def projFields (r : DailyRow) : ℕ × ℕ × ℤ × ℚ :=
  (r.buyCount, r.tradeCount, r.sellCount, DailyRow.buyRatio r)

/-- Running sums with an initial accumulator; closed form of the
cumulative-sum pass. -/
def cumsums (acc : ℚ) : List ℚ → List ℚ
  | [] => []
  | x :: xs => (acc + x) :: cumsums (acc + x) xs

/-- Join of one dated trade row against a sentiment table whose dates are
distinct: the single merged row the left join yields for it. -/
def joinOne (fg : List FgRow) (rd : TradeRow × Option Date) : MergedRow :=
  match fg.filter (fun g => decide (some g.date = rd.2)) with
  | [] => ⟨rd.1.side, rd.1.closedPnl, rd.1.sizeUsd, rd.1.fee, rd.2, none, none⟩
  | g :: _ => ⟨rd.1.side, rd.1.closedPnl, rd.1.sizeUsd, rd.1.fee, rd.2,
      some g.value, some g.classification⟩

section Lemmas

theorem mem_insertKey {a d : Date} {l : List Date} :
    a ∈ insertKey d l ↔ a = d ∨ a ∈ l := by
  induction l with
  | nil => simp [insertKey]
  | cons x xs ih =>
    by_cases h1 : Date.blt d x = true
    · simp [insertKey, h1]
    · by_cases h2 : d = x
      · subst h2
        simp [insertKey, h1]
      · simp [insertKey, h1, h2, ih]
        tauto

theorem pairwise_insertKey {d : Date} {l : List Date}
    (h : l.Pairwise (fun a b => Date.blt a b = true)) :
    (insertKey d l).Pairwise (fun a b => Date.blt a b = true) := by
  induction l with
  | nil => simp [insertKey]
  | cons x xs ih =>
    rcases List.pairwise_cons.mp h with ⟨hx, hxs⟩
    by_cases h1 : Date.blt d x = true
    · rw [insertKey, if_pos h1]
      refine List.pairwise_cons.mpr ⟨?_, h⟩
      intro b hb
      rcases List.mem_cons.mp hb with rfl | hb
      · exact h1
      · exact Date.blt_trans h1 (hx b hb)
    · by_cases h2 : d = x
      · rw [insertKey, if_neg h1, if_pos h2]
        exact h
      · rw [insertKey, if_neg h1, if_neg h2]
        refine List.pairwise_cons.mpr ⟨?_, ih hxs⟩
        intro b hb
        rcases mem_insertKey.mp hb with hb | hb
        · subst hb
          exact Date.blt_total (Bool.not_eq_true _ ▸ h1) h2
        · exact hx b hb

theorem pairwise_sortedKeys (ds : List Date) :
    (sortedKeys ds).Pairwise (fun a b => Date.blt a b = true) := by
  induction ds with
  | nil => simp [sortedKeys]
  | cons d ds ih => exact pairwise_insertKey ih

theorem mem_sortedKeys {a : Date} {ds : List Date} :
    a ∈ sortedKeys ds ↔ a ∈ ds := by
  induction ds with
  | nil => simp [sortedKeys]
  | cons d ds ih =>
    show a ∈ insertKey d (sortedKeys ds) ↔ _
    rw [mem_insertKey, ih]
    simp

theorem nodup_sortedKeys (ds : List Date) : (sortedKeys ds).Nodup :=
  (pairwise_sortedKeys ds).imp (fun h => Date.ne_of_blt h)

theorem sum_map_filter_split (f : MergedRow → ℚ) (p : MergedRow → Bool)
    (l : List MergedRow) :
    (l.map f).sum =
      ((l.filter p).map f).sum + ((l.filter (fun r => !(p r))).map f).sum := by
  induction l with
  | nil => simp
  | cons r rs ih =>
    by_cases h : p r = true
    · simp [h, ih]
      ring
    · simp [h, Bool.not_eq_true _ ▸ h, ih]
      ring

theorem sum_filter_partition (f : MergedRow → ℚ) :
    ∀ (keys : List Date), keys.Nodup → ∀ (l : List MergedRow),
      (∀ r ∈ l, ∃ k ∈ keys, r.date = some k) →
      (keys.map (fun k =>
        ((l.filter (fun r => decide (r.date = some k))).map f).sum)).sum
        = (l.map f).sum := by
  intro keys
  induction keys with
  | nil =>
    intro _ l hcov
    cases l with
    | nil => simp
    | cons r rs =>
      rcases hcov r (by simp) with ⟨k, hk, _⟩
      exact absurd hk (List.not_mem_nil k)
  | cons k ks ih =>
    intro hnd l hcov
    rcases List.nodup_cons.mp hnd with ⟨hk, hks⟩
    have hsplit := sum_map_filter_split f (fun r => decide (r.date = some k)) l
    have hrest : ∀ k2 ∈ ks,
        l.filter (fun r => decide (r.date = some k2)) =
          (l.filter (fun r => !(decide (r.date = some k)))).filter
            (fun r => decide (r.date = some k2)) := by
      intro k2 hk2
      rw [List.filter_filter]
      apply List.filter_congr
      intro r _
      by_cases hd : r.date = some k2
      · have hne : k2 ≠ k := fun he => hk (he ▸ hk2)
        simp [hd, hne]
      · simp [hd]
    have hcov2 : ∀ r ∈ l.filter (fun r => !(decide (r.date = some k))),
        ∃ k2 ∈ ks, r.date = some k2 := by
      intro r hr
      rcases List.mem_filter.mp hr with ⟨hrl, hrp⟩
      rcases hcov r hrl with ⟨k2, hk2, hdk⟩
      rcases List.mem_cons.mp hk2 with he | hm
      · exfalso
        subst he
        simp [hdk] at hrp
      · exact ⟨k2, hm, hdk⟩
    calc
      ((k :: ks).map (fun k2 =>
        ((l.filter (fun r => decide (r.date = some k2))).map f).sum)).sum
        = ((l.filter (fun r => decide (r.date = some k))).map f).sum +
          (ks.map (fun k2 =>
            ((l.filter (fun r => decide (r.date = some k2))).map f).sum)).sum := by
          simp
      _ = ((l.filter (fun r => decide (r.date = some k))).map f).sum +
          (ks.map (fun k2 =>
            (((l.filter (fun r => !(decide (r.date = some k)))).filter
              (fun r => decide (r.date = some k2))).map f).sum)).sum := by
          congr 1
          apply congrArg
          exact List.map_congr_left (fun k2 hk2 => by rw [hrest k2 hk2])
      _ = ((l.filter (fun r => decide (r.date = some k))).map f).sum +
          ((l.filter (fun r => !(decide (r.date = some k)))).map f).sum := by
          congr 1
          exact ih hks _ hcov2
      _ = (l.map f).sum := (hsplit).symm

theorem filter_fg_nil_or_singleton {fg : List FgRow}
    (hnd : (fg.map FgRow.date).Nodup) (d : Option Date) :
    fg.filter (fun g => decide (some g.date = d)) = [] ∨
      ∃ g, fg.filter (fun g => decide (some g.date = d)) = [g] := by
  induction fg with
  | nil => left; rfl
  | cons g fgs ih =>
    rcases List.nodup_cons.mp hnd with ⟨hg, hgs⟩
    by_cases hd : some g.date = d
    · right
      refine ⟨g, ?_⟩
      rw [List.filter_cons, if_pos (by simp [hd])]
      have hnil : fgs.filter (fun g2 => decide (some g2.date = d)) = [] := by
        rw [List.filter_eq_nil_iff]
        intro g2 hg2
        simp only [decide_eq_true_eq]
        intro hc
        exact hg (Option.some.inj (hc.trans hd.symm) ▸
          List.mem_map_of_mem FgRow.date hg2)
      rw [hnil]
    · rw [List.filter_cons, if_neg (by simp [hd])]
      exact ih hgs

theorem leftJoinFg_eq_map {fg : List FgRow}
    (hnd : (fg.map FgRow.date).Nodup)
    (rows : List (TradeRow × Option Date)) :
    leftJoinFg fg rows = rows.map (joinOne fg) := by
  induction rows with
  | nil => rfl
  | cons rd rds ih =>
    show (rd :: rds).flatMap _ = _
    rw [List.flatMap_cons, List.map_cons, ← ih]
    show _ ++ leftJoinFg fg rds = _ :: leftJoinFg fg rds
    rcases filter_fg_nil_or_singleton hnd rd.2 with h | ⟨g, h⟩ <;>
      simp [joinOne, h]

theorem joinOne_closedPnl (fg : List FgRow) (rd : TradeRow × Option Date) :
    (joinOne fg rd).closedPnl = rd.1.closedPnl := by
  unfold joinOne
  split <;> rfl

theorem joinOne_date (fg : List FgRow) (rd : TradeRow × Option Date) :
    (joinOne fg rd).date = rd.2 := by
  unfold joinOne
  split <;> rfl

theorem mem_leftJoinFg_date {fg : List FgRow}
    {rows : List (TradeRow × Option Date)} {r : MergedRow}
    (hr : r ∈ leftJoinFg fg rows) : ∃ rd ∈ rows, r.date = rd.2 := by
  rcases List.mem_flatMap.mp hr with ⟨rd, hrd, hin⟩
  refine ⟨rd, hrd, ?_⟩
  rcases h : fg.filter (fun g => decide (some g.date = rd.2)) with _ | ⟨g, gs⟩
  · rw [h] at hin
    rcases List.mem_singleton.mp hin with rfl
    rfl
  · rw [h] at hin
    rcases List.mem_map.mp hin with ⟨g2, _, rfl⟩
    rfl

theorem mem_leftJoinFg_score {fg : List FgRow}
    {rows : List (TradeRow × Option Date)} {r : MergedRow}
    (hr : r ∈ leftJoinFg fg rows) (hs : r.sentimentScore.isSome = true) :
    ∃ g ∈ fg, r.date = some g.date := by
  rcases List.mem_flatMap.mp hr with ⟨rd, _, hin⟩
  rcases h : fg.filter (fun g => decide (some g.date = rd.2)) with _ | ⟨g, gs⟩
  · rw [h] at hin
    rcases List.mem_singleton.mp hin with rfl
    simp at hs
  · rw [h] at hin
    rcases List.mem_map.mp hin with ⟨g2, hg2, rfl⟩
    have hg2f : g2 ∈ fg.filter (fun g => decide (some g.date = rd.2)) := by
      rw [h]; exact hg2
    rcases List.mem_filter.mp hg2f with ⟨hg2fg, hg2p⟩
    refine ⟨g2, hg2fg, ?_⟩
    simp only [decide_eq_true_eq] at hg2p
    exact hg2p.symm

theorem leftJoinFg_match {fg : List FgRow}
    {rows : List (TradeRow × Option Date)} {k : Date}
    (hfg : k ∈ fg.map FgRow.date) (hrow : ∃ rd ∈ rows, rd.2 = some k) :
    ∃ r ∈ leftJoinFg fg rows, r.date = some k ∧ r.sentimentScore.isSome = true := by
  rcases hrow with ⟨rd, hrd, hrdk⟩
  rcases List.mem_map.mp hfg with ⟨g, hgfg, hgk⟩
  have hgf : g ∈ fg.filter (fun g2 => decide (some g2.date = rd.2)) :=
    List.mem_filter.mpr ⟨hgfg, by simp [hgk, hrdk]⟩
  rcases h : fg.filter (fun g2 => decide (some g2.date = rd.2)) with _ | ⟨g2, gs⟩
  · rw [h] at hgf
    exact absurd hgf (List.not_mem_nil g)
  · refine ⟨⟨rd.1.side, rd.1.closedPnl, rd.1.sizeUsd, rd.1.fee, rd.2,
      some g2.value, some g2.classification⟩, ?_, by simpa using hrdk, rfl⟩
    apply List.mem_flatMap.mpr
    refine ⟨rd, hrd, ?_⟩
    rw [h]
    exact List.mem_map.mpr ⟨g2, List.mem_cons_self g2 gs, rfl⟩

theorem firstSome_isSome {α : Type} (l : List (Option α)) :
    (firstSome l).isSome = l.any Option.isSome := by
  induction l with
  | nil => rfl
  | cons o os ih =>
    cases o with
    | some a => rfl
    | none => simp [firstSome, ih]

theorem addCumulative_map {β : Type} (f : DailyRow → β)
    (hf : ∀ r q, f { r with cumulativePnl := q } = f r) :
    ∀ (acc : ℚ) (l : List DailyRow), (addCumulative acc l).map f = l.map f := by
  intro acc l
  induction l generalizing acc with
  | nil => rfl
  | cons r rs ih => simp [addCumulative, hf, ih]

theorem ffillSentiment_map {β : Type} (f : DailyRow → β)
    (hf : ∀ r s c, f { r with sentimentScore := s, sentimentCategory := c } = f r) :
    ∀ (cs : Option ℚ) (cc : Option String) (l : List DailyRow),
      (ffillSentiment cs cc l).map f = l.map f := by
  intro cs cc l
  induction l generalizing cs cc with
  | nil => rfl
  | cons r rs ih => simp [ffillSentiment, hf, ih]

theorem addCumulative_map_cum :
    ∀ (acc : ℚ) (l : List DailyRow),
      (addCumulative acc l).map DailyRow.cumulativePnl =
        cumsums acc (l.map DailyRow.totalPnl) := by
  intro acc l
  induction l generalizing acc with
  | nil => rfl
  | cons r rs ih => simp [addCumulative, cumsums, ih]

theorem cumsums_length (acc : ℚ) (l : List ℚ) :
    (cumsums acc l).length = l.length := by
  induction l generalizing acc with
  | nil => rfl
  | cons x xs ih => simp [cumsums, ih]

theorem cumsums_get (acc : ℚ) (l : List ℚ) :
    ∀ (i : ℕ) (h2 : i < (cumsums acc l).length),
      (cumsums acc l).get ⟨i, h2⟩ = acc + (l.take (i + 1)).sum := by
  induction l generalizing acc with
  | nil => intro i h2; exact absurd h2 (by simp [cumsums])
  | cons x xs ih =>
    intro i h2
    cases i with
    | zero => simp [cumsums]
    | succ j =>
      have hj2 : j < (cumsums (acc + x) xs).length := by
        simpa [cumsums, cumsums_length] using h2
      show (cumsums (acc + x) xs).get ⟨j, hj2⟩ = _
      rw [ih (acc + x) j hj2]
      simp [List.take_cons]
      ring

theorem runningMaxAux_length (m : ℚ) (l : List ℚ) :
    (runningMaxAux m l).length = l.length := by
  induction l generalizing m with
  | nil => rfl
  | cons x xs ih => simp [runningMaxAux, ih]

theorem runningMax_length (l : List ℚ) : (runningMax l).length = l.length := by
  cases l with
  | nil => rfl
  | cons x xs => simp [runningMax, runningMaxAux_length]

theorem le_runningMaxAux (m : ℚ) (l : List ℚ) :
    ∀ (i : ℕ) (h : i < l.length) (h2 : i < (runningMaxAux m l).length),
      l.get ⟨i, h⟩ ≤ (runningMaxAux m l).get ⟨i, h2⟩ := by
  induction l generalizing m with
  | nil => intro i h _; exact absurd h (by simp)
  | cons x xs ih =>
    intro i h h2
    cases i with
    | zero => simp [runningMaxAux]
    | succ j =>
      have hj : j < xs.length := by simpa using h
      have hj2 : j < (runningMaxAux (max m x) xs).length := by
        rw [runningMaxAux_length]; exact hj
      exact ih (max m x) j hj hj2

theorem le_runningMax (l : List ℚ) :
    ∀ (i : ℕ) (h : i < l.length) (h2 : i < (runningMax l).length),
      l.get ⟨i, h⟩ ≤ (runningMax l).get ⟨i, h2⟩ := by
  cases l with
  | nil => intro i h _; exact absurd h (by simp)
  | cons x xs =>
    intro i h h2
    cases i with
    | zero => simp [runningMax]
    | succ j =>
      have hj : j < xs.length := by simpa using h
      have hj2 : j < (runningMaxAux x xs).length := by
        rw [runningMaxAux_length]; exact hj
      exact le_runningMaxAux x xs j hj hj2

theorem foldl_min_le_init (xs : List ℚ) (a : ℚ) : xs.foldl min a ≤ a := by
  induction xs generalizing a with
  | nil => exact le_refl a
  | cons y ys ih =>
    calc (y :: ys).foldl min a = ys.foldl min (min a y) := rfl
    _ ≤ min a y := ih (min a y)
    _ ≤ a := min_le_left a y

theorem foldl_min_le_mem (xs : List ℚ) (a b : ℚ) (hb : b ∈ xs) :
    xs.foldl min a ≤ b := by
  induction xs generalizing a with
  | nil => exact absurd hb (List.not_mem_nil b)
  | cons y ys ih =>
    rcases List.mem_cons.mp hb with rfl | hb2
    · calc (b :: ys).foldl min a = ys.foldl min (min a b) := rfl
      _ ≤ min a b := foldl_min_le_init ys (min a b)
      _ ≤ b := min_le_right a b
    · exact ih (min a y) hb2

theorem le_foldl_min (xs : List ℚ) (a c : ℚ) (ha : c ≤ a)
    (hxs : ∀ b ∈ xs, c ≤ b) : c ≤ xs.foldl min a := by
  induction xs generalizing a with
  | nil => exact ha
  | cons y ys ih =>
    show c ≤ ys.foldl min (min a y)
    exact ih (min a y) (le_min ha (hxs y (by simp)))
      (fun b hb => hxs b (by simp [hb]))

theorem listMin_le_mem (l : List ℚ) (x : ℚ) (hx : x ∈ l) : listMin l ≤ x := by
  cases l with
  | nil => exact absurd hx (List.not_mem_nil x)
  | cons y ys =>
    rcases List.mem_cons.mp hx with rfl | hx2
    · exact foldl_min_le_init ys x
    · exact foldl_min_le_mem ys y x hx2

theorem le_listMin (l : List ℚ) (c : ℚ) (hne : l ≠ [])
    (hl : ∀ x ∈ l, c ≤ x) : c ≤ listMin l := by
  cases l with
  | nil => exact absurd rfl hne
  | cons y ys =>
    exact le_foldl_min ys y c (hl y (by simp)) (fun b hb => hl b (by simp [hb]))

theorem ffillSentiment_length (cs : Option ℚ) (cc : Option String)
    (l : List DailyRow) : (ffillSentiment cs cc l).length = l.length := by
  induction l generalizing cs cc with
  | nil => rfl
  | cons r rs ih => simp [ffillSentiment, ih]

theorem ffillSentiment_get_isSome :
    ∀ (l : List DailyRow) (cs : Option ℚ) (cc : Option String) (i : ℕ)
      (h : i < (ffillSentiment cs cc l).length),
      ((ffillSentiment cs cc l).get ⟨i, h⟩).sentimentScore.isSome =
        (cs.isSome || (l.take (i + 1)).any (fun r => r.sentimentScore.isSome)) := by
  intro l
  induction l with
  | nil => intro cs cc i h; exact absurd h (by simp [ffillSentiment])
  | cons r rs ih =>
    intro cs cc i h
    cases i with
    | zero =>
      show (match r.sentimentScore with
        | some v => some v
        | none => cs).isSome = _
      cases hs : r.sentimentScore with
      | some v => simp [hs]
      | none => simp [hs]
    | succ j =>
      have hj : j < (ffillSentiment
          (match r.sentimentScore with | some v => some v | none => cs)
          (match r.sentimentCategory with | some v => some v | none => cc)
          rs).length := by
        simpa [ffillSentiment, ffillSentiment_length] using h
      show ((ffillSentiment
          (match r.sentimentScore with | some v => some v | none => cs)
          (match r.sentimentCategory with | some v => some v | none => cc)
          rs).get ⟨j, hj⟩).sentimentScore.isSome =
        (cs.isSome || ((r :: rs).take (j + 1 + 1)).any
          (fun r2 => r2.sentimentScore.isSome))
      rw [ih _ _ j hj]
      cases hs : r.sentimentScore with
      | some v => simp [hs, List.any_cons]
      | none => simp [hs, List.any_cons]

theorem any_comp_map {α β : Type} (f : α → β) (p : β → Bool) (l : List α) :
    l.any (fun a => p (f a)) = (l.map f).any p := by
  induction l with
  | nil => rfl
  | cons x xs ih => simp [ih]

theorem any_take_iff {α : Type} (p : α → Bool) :
    ∀ (l : List α) (n : ℕ),
      ((l.take n).any p = true ↔
        ∃ j, j < n ∧ ∃ hj : j < l.length, p (l.get ⟨j, hj⟩) = true) := by
  intro l
  induction l with
  | nil => intro n; simp
  | cons x xs ih =>
    intro n
    cases n with
    | zero => simp
    | succ m =>
      rw [List.take_succ_cons]
      constructor
      · intro h
        rcases List.any_eq_true.mp h with ⟨a, ha, hpa⟩
        rcases List.mem_cons.mp ha with rfl | ha2
        · exact ⟨0, Nat.succ_pos m, by simp, hpa⟩
        · rcases (ih m).mp (List.any_eq_true.mpr ⟨a, ha2, hpa⟩) with
            ⟨j, hjm, hj, hpj⟩
          exact ⟨j + 1, by omega, by simpa using hj, hpj⟩
      · rintro ⟨j, hjm, hj, hpj⟩
        cases j with
        | zero => exact List.any_eq_true.mpr ⟨x, by simp, hpj⟩
        | succ j2 =>
          have hj2 : j2 < xs.length := by simpa using hj
          apply List.any_eq_true.mpr
          have hmem := (ih m).mpr ⟨j2, by omega, hj2, hpj⟩
          rcases List.any_eq_true.mp hmem with ⟨a, ha, hpa⟩
          exact ⟨a, by simp [ha], hpa⟩

theorem daily_map_date (fg : List FgRow) (t : TradeTable) :
    (createDailyAggregates fg t).map DailyRow.date =
      sortedKeys ((mergeByDate fg t).filterMap MergedRow.date) := by
  show (ffillSentiment none none (addCumulative 0 _)).map DailyRow.date = _
  rw [ffillSentiment_map DailyRow.date (fun r s c => rfl),
    addCumulative_map DailyRow.date (fun r q => rfl), List.map_map]
  exact List.map_id _

theorem daily_map_total (fg : List FgRow) (t : TradeTable) :
    (createDailyAggregates fg t).map DailyRow.totalPnl =
      (sortedKeys ((mergeByDate fg t).filterMap MergedRow.date)).map
        (fun k => ((groupRows (mergeByDate fg t) k).map MergedRow.closedPnl).sum) := by
  show (ffillSentiment none none (addCumulative 0 _)).map DailyRow.totalPnl = _
  rw [ffillSentiment_map DailyRow.totalPnl (fun r s c => rfl),
    addCumulative_map DailyRow.totalPnl (fun r q => rfl), List.map_map]
  rfl

theorem daily_map_cum (fg : List FgRow) (t : TradeTable) :
    (createDailyAggregates fg t).map DailyRow.cumulativePnl =
      cumsums 0 (((sortedKeys ((mergeByDate fg t).filterMap MergedRow.date)).map
        (baseAgg (mergeByDate fg t))).map DailyRow.totalPnl) := by
  show (ffillSentiment none none (addCumulative 0 _)).map DailyRow.cumulativePnl = _
  rw [ffillSentiment_map DailyRow.cumulativePnl (fun r s c => rfl),
    addCumulative_map_cum]

theorem daily_length (fg : List FgRow) (t : TradeTable) :
    (createDailyAggregates fg t).length =
      (sortedKeys ((mergeByDate fg t).filterMap MergedRow.date)).length := by
  have h1 := congrArg List.length (daily_map_date fg t)
  rw [List.length_map] at h1
  exact h1

theorem group_nonempty {merged : List MergedRow} {k : Date}
    (hk : k ∈ sortedKeys (merged.filterMap MergedRow.date)) :
    groupRows merged k ≠ [] := by
  rcases List.mem_filterMap.mp (mem_sortedKeys.mp hk) with ⟨r, hr, hrk⟩
  exact List.ne_nil_of_mem (List.mem_filter.mpr ⟨hr, by simp [hrk]⟩)

theorem group_score_iff {fg : List FgRow} {t : TradeTable} {k : Date}
    (hk : k ∈ sortedKeys ((mergeByDate fg t).filterMap MergedRow.date)) :
    ((groupRows (mergeByDate fg t) k).any
        (fun r => r.sentimentScore.isSome) = true) ↔
      k ∈ fg.map FgRow.date := by
  constructor
  · intro h
    rcases List.any_eq_true.mp h with ⟨r, hr, hrs⟩
    rcases List.mem_filter.mp hr with ⟨hrm, hrk⟩
    simp only [decide_eq_true_eq] at hrk
    rcases mem_leftJoinFg_score hrm hrs with ⟨g, hg, hdg⟩
    have : k = g.date := by rw [hrk] at hdg; exact Option.some.inj hdg
    exact this ▸ List.mem_map_of_mem FgRow.date hg
  · intro h
    rcases List.mem_filterMap.mp (mem_sortedKeys.mp hk) with ⟨r0, hr0, hr0k⟩
    rcases mem_leftJoinFg_date hr0 with ⟨rd, hrd, hrdd⟩
    have hrd2 : rd.2 = some k := by rw [← hrdd]; exact hr0k
    rcases leftJoinFg_match h ⟨rd, hrd, hrd2⟩ with ⟨r, hrm, hrk, hrs⟩
    exact List.any_eq_true.mpr
      ⟨r, List.mem_filter.mpr ⟨hrm, by simp [hrk]⟩, hrs⟩

theorem proj_get {β : Type} (f : DailyRow → β) (l : List DailyRow)
    (res : List β) (h : l.map f = res) (i : ℕ) (hi : i < l.length)
    (hi2 : i < res.length) : f (l.get ⟨i, hi⟩) = res.get ⟨i, hi2⟩ := by
  subst h
  simp [List.get_eq_getElem, List.getElem_map]

theorem daily_map_total_base (fg : List FgRow) (t : TradeTable) :
    (createDailyAggregates fg t).map DailyRow.totalPnl =
      ((sortedKeys ((mergeByDate fg t).filterMap MergedRow.date)).map
        (baseAgg (mergeByDate fg t))).map DailyRow.totalPnl := by
  show (ffillSentiment none none (addCumulative 0 _)).map _ = _
  rw [ffillSentiment_map DailyRow.totalPnl (fun r s c => rfl),
    addCumulative_map DailyRow.totalPnl (fun r q => rfl)]

theorem baseAgg_tradeCount (merged : List MergedRow) (k : Date) :
    (baseAgg merged k).tradeCount = (groupRows merged k).length := rfl

theorem baseAgg_buyCount (merged : List MergedRow) (k : Date) :
    (baseAgg merged k).buyCount =
      ((groupRows merged k).filter (fun r => decide (r.side = "BUY"))).length := rfl

theorem baseAgg_sellCount (merged : List MergedRow) (k : Date) :
    (baseAgg merged k).sellCount =
      ((groupRows merged k).length : ℤ) -
        (((groupRows merged k).filter (fun r => decide (r.side = "BUY"))).length : ℤ) := rfl

theorem baseAgg_buyRatio (merged : List MergedRow) (k : Date) :
    DailyRow.buyRatio (baseAgg merged k) =
      ((((groupRows merged k).filter (fun r => decide (r.side = "BUY"))).length : ℚ)) /
        ((groupRows merged k).length : ℚ) := rfl

theorem mem_daily_fields {fg : List FgRow} {t : TradeTable} {row : DailyRow}
    (hrow : row ∈ createDailyAggregates fg t) :
    ∃ k ∈ sortedKeys ((mergeByDate fg t).filterMap MergedRow.date),
      row.buyCount = (baseAgg (mergeByDate fg t) k).buyCount ∧
      row.tradeCount = (baseAgg (mergeByDate fg t) k).tradeCount ∧
      row.sellCount = (baseAgg (mergeByDate fg t) k).sellCount ∧
      DailyRow.buyRatio row = DailyRow.buyRatio (baseAgg (mergeByDate fg t) k) := by
  have hmap : (createDailyAggregates fg t).map projFields =
      ((sortedKeys ((mergeByDate fg t).filterMap MergedRow.date)).map
        (baseAgg (mergeByDate fg t))).map projFields := by
    show (ffillSentiment none none (addCumulative 0 _)).map _ = _
    rw [ffillSentiment_map projFields (fun r s c => rfl),
      addCumulative_map projFields (fun r q => rfl)]
  have hin := List.mem_map_of_mem projFields hrow
  rw [hmap] at hin
  rcases List.mem_map.mp hin with ⟨b, hb, hfb⟩
  rcases List.mem_map.mp hb with ⟨k, hk, rfl⟩
  have h1 : row.buyCount = (baseAgg (mergeByDate fg t) k).buyCount :=
    congrArg (fun p => p.1) hfb.symm
  have h2 : row.tradeCount = (baseAgg (mergeByDate fg t) k).tradeCount :=
    congrArg (fun p => p.2.1) hfb.symm
  have h3 : row.sellCount = (baseAgg (mergeByDate fg t) k).sellCount :=
    congrArg (fun p => p.2.2.1) hfb.symm
  have h4 : DailyRow.buyRatio row = DailyRow.buyRatio (baseAgg (mergeByDate fg t) k) :=
    congrArg (fun p => p.2.2.2) hfb.symm
  exact ⟨k, hk, h1, h2, h3, h4⟩

theorem baseAgg_score_isSome (merged : List MergedRow) (k : Date) :
    (baseAgg merged k).sentimentScore.isSome =
      (groupRows merged k).any (fun r => r.sentimentScore.isSome) := by
  show (firstSome ((groupRows merged k).map MergedRow.sentimentScore)).isSome = _
  rw [firstSome_isSome, ← any_comp_map]

theorem listMean_replicate (n : ℕ) (c : ℚ) (hn : n ≠ 0) :
    listMean (List.replicate n c) = c := by
  have hq : (n : ℚ) ≠ 0 := by exact_mod_cast hn
  rw [listMean, List.sum_replicate, List.length_replicate, nsmul_eq_mul,
    mul_comm (n : ℚ) c, mul_div_assoc, div_self hq, mul_one]

theorem sampleVar_replicate (n : ℕ) (c : ℚ) (hn : 2 ≤ n) :
    sampleVarList (List.replicate n c) = some 0 := by
  rw [sampleVarList, if_neg (by simp; omega)]
  congr 1
  rw [listMean_replicate n c (by omega), List.map_replicate]
  simp

end Lemmas

section Claims

/-- C2 (amended).  The analyzer correlation operation degrades to an empty
map when no daily data exists, but the DataProcessor merge raises an
exception whenever either source table is absent instead of returning a
neutral result. -/
theorem claim2_theorem :
    (∀ fgData : Option (List FgRow),
      mergeDatasets fgData none =
        .error "Both datasets must be loaded before merging") ∧
    (∀ tData : Option TradeTable,
      mergeDatasets none tData =
        .error "Both datasets must be loaded before merging") ∧
    calculateSentimentTradingCorrelations none = [] := by
  refine ⟨?_, ?_, rfl⟩
  · intro fgData
    cases fgData <;> rfl
  · intro tData
    cases tData <;> rfl

/-- C2 counterexample: with the sentiment table loaded and the trade table
absent, the merge operation raises (returns the error branch) instead of
returning an empty or neutral result, refuting the never-raises claim. -/
theorem claim2_counterexample :
    mergeDatasets (some [⟨⟨2024, 1, 1⟩, 50, "Neutral"⟩]) none =
      .error "Both datasets must be loaded before merging" := rfl

/-- C9.  Day derivation follows the fixed precedence everywhere the core
derives it: the analyzer merge agrees with the cleaning step whenever it
derives at all; a present local-time string column wins (unparseable cells
giving a null day); else a numeric epoch column (null cells giving a null
day); else every row gets the fixed fallback date 2024-12-02. -/
theorem claim9_theorem (t : TradeTable) (r : TradeRow) :
    (t.hasDate = false → mergeRowDate t r = cleanRowDatetime t r) ∧
    (t.hasTsIST = true → cleanRowDatetime t r = parseTimestampIST r.tsIST) ∧
    (t.hasTsIST = false → t.hasTsEpoch = true →
      cleanRowDatetime t r = r.tsEpoch.map epochToDate) ∧
    (t.hasTsIST = false → t.hasTsEpoch = false →
      cleanRowDatetime t r = some fallbackDate ∧ fallbackDate = ⟨2024, 12, 2⟩) :=
  ⟨fun h => by simp [mergeRowDate, cleanRowDatetime, h],
   fun h => by simp [cleanRowDatetime, h],
   fun h1 h2 => by simp [cleanRowDatetime, h1, h2],
   fun h1 h2 => ⟨by simp [cleanRowDatetime, h1, h2], rfl⟩⟩

/-- C9 witness: the precedence theorem applied to a table whose only
timestamp column is the local-time string, at an unparseable cell (February
31st), and to a table with no timestamp column at all. -/
theorem claim9_witness :
    (cleanRowDatetime ⟨false, true, false, []⟩
        ⟨"BUY", 0, 0, 0, "31-02-2024 10:00", none, none⟩ =
      parseTimestampIST "31-02-2024 10:00") ∧
    parseTimestampIST "31-02-2024 10:00" = none ∧
    (cleanRowDatetime ⟨false, false, false, []⟩
        ⟨"SELL", 0, 0, 0, "", none, none⟩ = some fallbackDate) ∧
    (mergeRowDate ⟨false, false, false, []⟩
        ⟨"SELL", 0, 0, 0, "", none, none⟩ =
      cleanRowDatetime ⟨false, false, false, []⟩
        ⟨"SELL", 0, 0, 0, "", none, none⟩) :=
  ⟨(claim9_theorem ⟨false, true, false, []⟩
      ⟨"BUY", 0, 0, 0, "31-02-2024 10:00", none, none⟩).2.1 rfl,
   by decide,
   ((claim9_theorem ⟨false, false, false, []⟩
      ⟨"SELL", 0, 0, 0, "", none, none⟩).2.2.2 rfl rfl).1,
   (claim9_theorem ⟨false, false, false, []⟩
      ⟨"SELL", 0, 0, 0, "", none, none⟩).1 rfl⟩

/-- C10.  The rolling-correlation utility raises the length-mismatch error
whenever the two series differ in length, regardless of the window (so
before any window-size handling), and returns a result, never raising, for
equal-length inputs. -/
theorem claim10_theorem (s1 s2 : List ℚ) (window : ℕ) :
    (s1.length ≠ s2.length →
      rollingCorrelation s1 s2 window =
        .error "Series must have the same length") ∧
    (s1.length = s2.length →
      ∃ out, rollingCorrelation s1 s2 window = .ok out) := by
  constructor
  · intro h
    rw [rollingCorrelation, if_pos h]
  · intro h
    rw [rollingCorrelation, if_neg (by simp [h])]
    by_cases h2 : s1.length < window
    · exact ⟨_, by rw [if_pos h2]⟩
    · exact ⟨_, by rw [if_neg h2]⟩

/-- C10 witness: the mismatch branch at series of lengths one and zero with
the default window, and the ok branch at two equal-length series. -/
theorem claim10_witness :
    (rollingCorrelation [1] [] 30 =
      .error "Series must have the same length") ∧
    ∃ out, rollingCorrelation [1, 2] [3, 4] 30 = .ok out :=
  ⟨(claim10_theorem [1] [] 30).1 (by decide),
   (claim10_theorem [1, 2] [3, 4] 30).2 rfl⟩

/-- C6.  The Sharpe ratio is exactly zero for the empty series and for any
constant series of two or more observations (zero standard deviation), and
on every other series equals the annualized excess mean over the standard
deviation, where a NaN standard deviation (single observation) propagates
to a NaN result, with the default risk-free rate 0.02. -/
theorem claim6_theorem :
    (sharpeRatio [] (2/100) = some 0) ∧
    (∀ (c : ℚ) (n : ℕ), 2 ≤ n →
      sharpeRatio (List.replicate n c) (2/100) = some 0) ∧
    (∀ l : List ℚ, l ≠ [] → sampleVarList l ≠ some 0 →
      sharpeRatio l (2/100) = (sampleVarList l).map (fun v =>
        ((listMean (l.map (fun x => x - (2/100) / 252)) : ℚ) : ℝ)
          / Real.sqrt (v : ℝ) * Real.sqrt 252)) := by
  refine ⟨by simp [sharpeRatio], ?_, ?_⟩
  · intro c n hn
    rw [sharpeRatio, if_pos (Or.inr (sampleVar_replicate n c hn))]
  · intro l hne hvar
    rw [sharpeRatio,
      if_neg (by simp [hvar, List.length_eq_zero, hne])]
    cases h : sampleVarList l with
    | none => simp
    | some v => simp

/-- C6 witness: the theorem applied to the empty series, to a constant
series of two fives, and to the two-point series zero-one whose variance is
one half. -/
theorem claim6_witness :
    (sharpeRatio [] (2/100) = some 0) ∧
    (sharpeRatio (List.replicate 2 5) (2/100) = some 0) ∧
    (sharpeRatio [0, 1] (2/100) = (sampleVarList [0, 1]).map (fun v =>
      ((listMean (([0, 1] : List ℚ).map (fun x => x - (2/100) / 252)) : ℚ) : ℝ)
        / Real.sqrt (v : ℝ) * Real.sqrt 252)) := by
  have hv : sampleVarList [0, 1] = some (1/2) := by
    simp only [sampleVarList]
    norm_num [listMean]
  exact ⟨claim6_theorem.1,
    claim6_theorem.2.1 5 2 (by norm_num),
    claim6_theorem.2.2 [0, 1] (by simp) (by rw [hv]; simp)⟩

/-- C7.  Maximum drawdown is zero on the empty series, equals the minimum
of the drawdown series (cumulative minus running maximum) on any nonempty
series, is never positive, and vanishes exactly when the cumulative series
never dips below its running maximum. -/
theorem claim7_theorem :
    (maxDrawdown [] = 0) ∧
    (∀ l : List ℚ, l ≠ [] → maxDrawdown l = listMin (drawdowns l)) ∧
    (∀ l : List ℚ, maxDrawdown l ≤ 0) ∧
    (∀ l : List ℚ, (maxDrawdown l = 0 ↔
      ∀ (i : ℕ) (h1 : i < l.length) (h2 : i < (runningMax l).length),
        (runningMax l).get ⟨i, h2⟩ ≤ l.get ⟨i, h1⟩)) := by
  have hddlen : ∀ l : List ℚ, (drawdowns l).length = l.length := by
    intro l
    rw [drawdowns, List.length_zipWith, runningMax_length, min_self]
  have hddget : ∀ (l : List ℚ) (i : ℕ) (h : i < (drawdowns l).length)
      (h1 : i < l.length) (h2 : i < (runningMax l).length),
      (drawdowns l).get ⟨i, h⟩ = l.get ⟨i, h1⟩ - (runningMax l).get ⟨i, h2⟩ := by
    intro l i h h1 h2
    simp [drawdowns, List.get_eq_getElem, List.getElem_zipWith]
  have hmain : ∀ (x : ℚ) (xs : List ℚ),
      maxDrawdown (x :: xs) = listMin (drawdowns (x :: xs)) := by
    intro x xs
    rw [maxDrawdown, if_neg (by simp)]
  refine ⟨rfl, ?_, ?_, ?_⟩
  · intro l hne
    cases l with
    | nil => exact absurd rfl hne
    | cons x xs => exact hmain x xs
  · intro l
    cases l with
    | nil => exact le_refl 0
    | cons x xs =>
      rw [hmain x xs]
      have hmem : x - x ∈ drawdowns (x :: xs) := by
        show x - x ∈ List.zipWith _ (x :: xs) (runningMax (x :: xs))
        rw [runningMax]
        exact List.mem_cons_self _ _
      calc listMin (drawdowns (x :: xs)) ≤ x - x :=
        listMin_le_mem _ _ hmem
      _ = 0 := sub_self x
  · intro l
    cases l with
    | nil =>
      constructor
      · intro _ i h1 _
        exact absurd h1 (by simp)
      · intro _
        rfl
    | cons x xs =>
      rw [hmain x xs]
      constructor
      · intro hmin i h1 h2
        have hdd : i < (drawdowns (x :: xs)).length := by
          rw [hddlen]; exact h1
        have hle := listMin_le_mem (drawdowns (x :: xs)) _
          (List.get_mem (drawdowns (x :: xs)) i hdd)
        rw [hmin, hddget (x :: xs) i hdd h1 h2] at hle
        linarith
      · intro hall
        have hallz : ∀ y ∈ drawdowns (x :: xs), 0 ≤ y := by
          intro y hy
          rcases List.mem_iff_get.mp hy with ⟨⟨i, hi⟩, rfl⟩
          have h1 : i < (x :: xs).length := by
            rw [← hddlen (x :: xs)]; exact hi
          have h2 : i < (runningMax (x :: xs)).length := by
            rw [runningMax_length]; exact h1
          rw [hddget (x :: xs) i hi h1 h2]
          have := hall i h1 h2
          linarith
        have hup : listMin (drawdowns (x :: xs)) ≤ 0 := by
          have hmem : x - x ∈ drawdowns (x :: xs) := by
            show x - x ∈ List.zipWith _ (x :: xs) (runningMax (x :: xs))
            rw [runningMax]
            exact List.mem_cons_self _ _
          calc listMin (drawdowns (x :: xs)) ≤ x - x :=
            listMin_le_mem _ _ hmem
          _ = 0 := sub_self x
        have hdown : 0 ≤ listMin (drawdowns (x :: xs)) := by
          apply le_listMin
          · intro hc
            have := congrArg List.length hc
            rw [hddlen] at this
            simp at this
          · exact hallz
        linarith

/-- C7 witness: the theorem applied to the series three-one (a strict dip,
negative drawdown) and the constant series two-two (never below its peak,
drawdown zero by the equivalence). -/
theorem claim7_witness :
    (maxDrawdown [3, 1] = listMin (drawdowns [3, 1])) ∧
    maxDrawdown [3, 1] ≤ 0 ∧
    (maxDrawdown [2, 2] = 0 ↔
      ∀ (i : ℕ) (h1 : i < ([2, 2] : List ℚ).length)
        (h2 : i < (runningMax [2, 2]).length),
        (runningMax [2, 2]).get ⟨i, h2⟩ ≤ ([2, 2] : List ℚ).get ⟨i, h1⟩) :=
  ⟨claim7_theorem.2.1 [3, 1] (by decide),
   claim7_theorem.2.2.1 [3, 1],
   claim7_theorem.2.2.2 [2, 2]⟩

/-- C3 (amended).  With zero rows of non-null sentiment the four
correlations all report exactly zero; with exactly one such row the
computation does not raise, and each correlation is NaN (null), not
zero. -/
theorem claim3_theorem :
    (∀ daily : List DailyRow, (dropnaSentiment daily).length = 0 →
      calculateSentimentTradingCorrelations (some daily) =
        [("sentiment_pnl", some 0), ("sentiment_volume", some 0),
         ("sentiment_trades", some 0), ("sentiment_winrate", some 0)]) ∧
    (∀ daily : List DailyRow, (dropnaSentiment daily).length = 1 →
      calculateSentimentTradingCorrelations (some daily) =
        [("sentiment_pnl", none), ("sentiment_volume", none),
         ("sentiment_trades", none), ("sentiment_winrate", none)]) := by
  constructor
  · intro daily h
    simp [calculateSentimentTradingCorrelations, h]
  · intro daily h
    simp [calculateSentimentTradingCorrelations, seriesCorr, h]

/-- C3 counterexample: the specification scenario (one sentiment entry and
one trade on that day) yields exactly one aligned row, and every
correlation evaluates to NaN, not to the claimed zero. -/
theorem claim3_counterexample :
    (dropnaSentiment (createDailyAggregates exC3fg exC3t)).length = 1 ∧
    calculateSentimentTradingCorrelations
        (some (createDailyAggregates exC3fg exC3t)) =
      [("sentiment_pnl", none), ("sentiment_volume", none),
       ("sentiment_trades", none), ("sentiment_winrate", none)] ∧
    (none : Option ℝ) ≠ some 0 := by
  refine ⟨by decide, ?_, by simp⟩
  have h : (dropnaSentiment (createDailyAggregates exC3fg exC3t)).length = 1 := by
    decide
  simp [calculateSentimentTradingCorrelations, seriesCorr, h]

/-- C3 witness: the amended theorem applied to the empty daily table (zero
aligned rows) and to the single-aligned-point pipeline output. -/
theorem claim3_witness :
    calculateSentimentTradingCorrelations (some ([] : List DailyRow)) =
      [("sentiment_pnl", some 0), ("sentiment_volume", some 0),
       ("sentiment_trades", some 0), ("sentiment_winrate", some 0)] ∧
    calculateSentimentTradingCorrelations
        (some (createDailyAggregates exC3fg exC3t)) =
      [("sentiment_pnl", none), ("sentiment_volume", none),
       ("sentiment_trades", none), ("sentiment_winrate", none)] :=
  ⟨claim3_theorem.1 [] rfl, claim3_theorem.2 _ (by decide)⟩

/-- C4.  Daily aggregation conserves the total pnl: over any valid pair of
tables (distinct sentiment days, as the data model requires, and a
derivable day for every trade row, so that no row is dropped from the
day-keyed groups), the total pnl column of the daily aggregate sums to the
closed pnl column of the input trade table. -/
theorem claim4_theorem (fg : List FgRow) (t : TradeTable)
    (hnd : (fg.map FgRow.date).Nodup)
    (hdays : ∀ r ∈ t.rows, (mergeRowDate t r).isSome = true) :
    ((createDailyAggregates fg t).map DailyRow.totalPnl).sum =
      (t.rows.map TradeRow.closedPnl).sum := by
  have hcov : ∀ r ∈ mergeByDate fg t,
      ∃ k ∈ sortedKeys ((mergeByDate fg t).filterMap MergedRow.date),
        r.date = some k := by
    intro r hr
    rcases mem_leftJoinFg_date hr with ⟨rd, hrd, hrdd⟩
    rcases List.mem_map.mp hrd with ⟨row, hrow, rfl⟩
    rcases Option.isSome_iff_exists.mp (hdays row hrow) with ⟨k, hk⟩
    refine ⟨k, ?_, by rw [hrdd]; exact hk⟩
    exact mem_sortedKeys.mpr
      (List.mem_filterMap.mpr ⟨r, hr, by rw [hrdd]; exact hk⟩)
  have hpart := sum_filter_partition MergedRow.closedPnl
    (sortedKeys ((mergeByDate fg t).filterMap MergedRow.date))
    (nodup_sortedKeys _) (mergeByDate fg t) hcov
  have hmerged : ((mergeByDate fg t).map MergedRow.closedPnl).sum =
      (t.rows.map TradeRow.closedPnl).sum := by
    show ((leftJoinFg fg (t.rows.map fun r => (r, mergeRowDate t r))).map
      MergedRow.closedPnl).sum = _
    rw [leftJoinFg_eq_map hnd, List.map_map, List.map_map]
    congr 1
    apply List.map_congr_left
    intro r _
    show (joinOne fg (r, mergeRowDate t r)).closedPnl = r.closedPnl
    exact joinOne_closedPnl fg (r, mergeRowDate t r)
  calc ((createDailyAggregates fg t).map DailyRow.totalPnl).sum
      = ((sortedKeys ((mergeByDate fg t).filterMap MergedRow.date)).map
          (fun k => ((groupRows (mergeByDate fg t) k).map
            MergedRow.closedPnl).sum)).sum := by rw [daily_map_total]
    _ = ((mergeByDate fg t).map MergedRow.closedPnl).sum := hpart
    _ = (t.rows.map TradeRow.closedPnl).sum := hmerged

/-- C4 witness: conservation applied to the concrete three-trade two-day
example, whose hypotheses (distinct sentiment days, derivable days) hold by
computation. -/
theorem claim4_witness :
    ((createDailyAggregates exC4fg exC4t).map DailyRow.totalPnl).sum =
      (exC4t.rows.map TradeRow.closedPnl).sum :=
  claim4_theorem exC4fg exC4t (by decide) (by decide)

/-- C5.  In every row of the daily aggregate the buy and sell counts sum to
the trade count, and the buy ratio lies between zero and one. -/
theorem claim5_theorem (fg : List FgRow) (t : TradeTable) (row : DailyRow)
    (hrow : row ∈ createDailyAggregates fg t) :
    (row.buyCount : ℤ) + row.sellCount = (row.tradeCount : ℤ) ∧
    0 ≤ DailyRow.buyRatio row ∧ DailyRow.buyRatio row ≤ 1 := by
  rcases mem_daily_fields hrow with ⟨k, hk, h1, h2, h3, h4⟩
  have hne := group_nonempty hk
  have hpos : 0 < (groupRows (mergeByDate fg t) k).length :=
    List.length_pos.mpr hne
  have hble : ((groupRows (mergeByDate fg t) k).filter
      (fun r => decide (r.side = "BUY"))).length ≤
        (groupRows (mergeByDate fg t) k).length :=
    List.length_filter_le _ _
  refine ⟨?_, ?_, ?_⟩
  · rw [h1, h2, h3, baseAgg_buyCount, baseAgg_tradeCount, baseAgg_sellCount]
    ring
  · rw [h4, baseAgg_buyRatio]
    positivity
  · rw [h4, baseAgg_buyRatio]
    rw [div_le_one (by exact_mod_cast hpos)]
    exact_mod_cast hble

/-- C5 witness: the count identities applied to the first aggregate row of
the two-buys-one-sell example. -/
theorem claim5_witness :
    ∃ h0 : 0 < (createDailyAggregates exC5fg exC5t).length,
      ((((createDailyAggregates exC5fg exC5t).get ⟨0, h0⟩).buyCount : ℤ) +
          ((createDailyAggregates exC5fg exC5t).get ⟨0, h0⟩).sellCount =
        (((createDailyAggregates exC5fg exC5t).get ⟨0, h0⟩).tradeCount : ℤ)) ∧
      0 ≤ DailyRow.buyRatio ((createDailyAggregates exC5fg exC5t).get ⟨0, h0⟩) ∧
      DailyRow.buyRatio ((createDailyAggregates exC5fg exC5t).get ⟨0, h0⟩) ≤ 1 := by
  refine ⟨by decide, ?_⟩
  exact claim5_theorem exC5fg exC5t _ (List.get_mem _ _ _)

/-- C8.  In the daily aggregate, ordered ascending by day as produced, the
first cumulative pnl equals the first total pnl, every later cumulative
pnl is the previous one plus the row total, and consecutive days strictly
ascend. -/
theorem claim8_theorem (fg : List FgRow) (t : TradeTable) :
    (∀ h0 : 0 < (createDailyAggregates fg t).length,
      ((createDailyAggregates fg t).get ⟨0, h0⟩).cumulativePnl =
        ((createDailyAggregates fg t).get ⟨0, h0⟩).totalPnl) ∧
    (∀ (i : ℕ) (hi : i + 1 < (createDailyAggregates fg t).length)
        (hi2 : i < (createDailyAggregates fg t).length),
      ((createDailyAggregates fg t).get ⟨i + 1, hi⟩).cumulativePnl =
        ((createDailyAggregates fg t).get ⟨i, hi2⟩).cumulativePnl +
          ((createDailyAggregates fg t).get ⟨i + 1, hi⟩).totalPnl) ∧
    (∀ (i : ℕ) (hi : i + 1 < (createDailyAggregates fg t).length)
        (hi2 : i < (createDailyAggregates fg t).length),
      Date.blt ((createDailyAggregates fg t).get ⟨i, hi2⟩).date
        ((createDailyAggregates fg t).get ⟨i + 1, hi⟩).date = true) := by
  have hts : ∀ i (hi : i < (createDailyAggregates fg t).length),
      i < (((sortedKeys ((mergeByDate fg t).filterMap MergedRow.date)).map
        (baseAgg (mergeByDate fg t))).map DailyRow.totalPnl).length := by
    intro i hi
    rw [List.length_map, List.length_map, ← daily_length fg t]
    exact hi
  have hcs : ∀ i (hi : i < (createDailyAggregates fg t).length),
      i < (cumsums 0 (((sortedKeys ((mergeByDate fg t).filterMap
        MergedRow.date)).map (baseAgg (mergeByDate fg t))).map
          DailyRow.totalPnl)).length := by
    intro i hi
    rw [cumsums_length]
    exact hts i hi
  have hcum : ∀ i (hi : i < (createDailyAggregates fg t).length),
      ((createDailyAggregates fg t).get ⟨i, hi⟩).cumulativePnl =
        0 + ((((sortedKeys ((mergeByDate fg t).filterMap MergedRow.date)).map
          (baseAgg (mergeByDate fg t))).map DailyRow.totalPnl).take (i + 1)).sum := by
    intro i hi
    rw [proj_get DailyRow.cumulativePnl _ _ (daily_map_cum fg t) i hi (hcs i hi)]
    exact cumsums_get _ _ i (hcs i hi)
  have htot : ∀ i (hi : i < (createDailyAggregates fg t).length),
      ((createDailyAggregates fg t).get ⟨i, hi⟩).totalPnl =
        (((sortedKeys ((mergeByDate fg t).filterMap MergedRow.date)).map
          (baseAgg (mergeByDate fg t))).map DailyRow.totalPnl).get
            ⟨i, hts i hi⟩ := by
    intro i hi
    exact proj_get DailyRow.totalPnl _ _ (daily_map_total_base fg t) i hi (hts i hi)
  refine ⟨?_, ?_, ?_⟩
  · intro h0
    rw [hcum 0 h0, htot 0 h0, zero_add]
    rw [List.sum_take_succ _ 0 (hts 0 h0)]
    simp [List.get_eq_getElem]
  · intro i hi hi2
    rw [hcum (i + 1) hi, hcum i hi2, htot (i + 1) hi]
    rw [List.sum_take_succ _ (i + 1) (hts (i + 1) hi)]
    simp [List.get_eq_getElem]
  · intro i hi hi2
    have hkeys : ∀ j (hj : j < (createDailyAggregates fg t).length),
        j < (sortedKeys ((mergeByDate fg t).filterMap MergedRow.date)).length := by
      intro j hj
      rw [← daily_length fg t]
      exact hj
    rw [proj_get DailyRow.date _ _ (daily_map_date fg t) i hi2 (hkeys i hi2),
      proj_get DailyRow.date _ _ (daily_map_date fg t) (i + 1) hi (hkeys (i + 1) hi)]
    exact List.pairwise_iff_get.mp
      (pairwise_sortedKeys ((mergeByDate fg t).filterMap MergedRow.date))
      ⟨i, hkeys i hi2⟩ ⟨i + 1, hkeys (i + 1) hi⟩ (by simp)

/-- C8 witness: the running-sum identities applied to the out-of-order
two-day example; the second aggregate row adds its total onto the first
cumulative value and the two days strictly ascend. -/
theorem claim8_witness :
    ∃ h1 : 1 < (createDailyAggregates exC8fg exC8t).length,
      ∃ h0 : 0 < (createDailyAggregates exC8fg exC8t).length,
        (((createDailyAggregates exC8fg exC8t).get ⟨1, h1⟩).cumulativePnl =
          ((createDailyAggregates exC8fg exC8t).get ⟨0, h0⟩).cumulativePnl +
            ((createDailyAggregates exC8fg exC8t).get ⟨1, h1⟩).totalPnl) ∧
        Date.blt ((createDailyAggregates exC8fg exC8t).get ⟨0, h0⟩).date
          ((createDailyAggregates exC8fg exC8t).get ⟨1, h1⟩).date = true := by
  refine ⟨by decide, by decide, ?_, ?_⟩
  · exact (claim8_theorem exC8fg exC8t).2.1 0 _ _
  · exact (claim8_theorem exC8fg exC8t).2.2 0 _ _

/-- C1 (amended).  A daily row enters the correlation inputs (survives the
sentiment dropna) exactly when some earlier-or-equal aggregate day has an
actual same-day sentiment record: forward-filled days are therefore
included in the correlation inputs, and only days before any known
sentiment are excluded. -/
theorem claim1_theorem (fg : List FgRow) (t : TradeTable) (i : ℕ)
    (hi : i < (createDailyAggregates fg t).length) :
    (((createDailyAggregates fg t).get ⟨i, hi⟩).sentimentScore.isSome = true) ↔
      ∃ j, j ≤ i ∧ ∃ hj : j < (createDailyAggregates fg t).length,
        ((createDailyAggregates fg t).get ⟨j, hj⟩).date ∈ fg.map FgRow.date := by
  have h1 : ((createDailyAggregates fg t).get ⟨i, hi⟩).sentimentScore.isSome =
      (((addCumulative 0 ((sortedKeys ((mergeByDate fg t).filterMap
        MergedRow.date)).map (baseAgg (mergeByDate fg t)))).take (i + 1)).any
          (fun r => r.sentimentScore.isSome)) := by
    have h0 := ffillSentiment_get_isSome
      (addCumulative 0 ((sortedKeys ((mergeByDate fg t).filterMap
        MergedRow.date)).map (baseAgg (mergeByDate fg t)))) none none i hi
    simpa using h0
  have h2 : (((addCumulative 0 ((sortedKeys ((mergeByDate fg t).filterMap
      MergedRow.date)).map (baseAgg (mergeByDate fg t)))).take (i + 1)).any
        (fun r => r.sentimentScore.isSome)) =
      ((((sortedKeys ((mergeByDate fg t).filterMap MergedRow.date)).map
        (baseAgg (mergeByDate fg t))).take (i + 1)).any
          (fun r => r.sentimentScore.isSome)) := by
    rw [any_comp_map DailyRow.sentimentScore Option.isSome,
      any_comp_map DailyRow.sentimentScore Option.isSome,
      List.map_take, List.map_take,
      addCumulative_map DailyRow.sentimentScore (fun r q => rfl)]
  have hlen2 := daily_length fg t
  have hgetbase : ∀ (j : ℕ)
      (hj : j < (((sortedKeys ((mergeByDate fg t).filterMap
        MergedRow.date)).map (baseAgg (mergeByDate fg t)))).length)
      (hjk : j < (sortedKeys ((mergeByDate fg t).filterMap
        MergedRow.date)).length),
      (((sortedKeys ((mergeByDate fg t).filterMap MergedRow.date)).map
        (baseAgg (mergeByDate fg t))).get ⟨j, hj⟩) =
        baseAgg (mergeByDate fg t)
          ((sortedKeys ((mergeByDate fg t).filterMap MergedRow.date)).get
            ⟨j, hjk⟩) := by
    intro j hj hjk
    simp [List.get_eq_getElem, List.getElem_map]
  constructor
  · intro h
    rw [h1, h2] at h
    rcases (any_take_iff _ _ (i + 1)).mp h with ⟨j, hji, hj, hpj⟩
    have hjk : j < (sortedKeys ((mergeByDate fg t).filterMap
        MergedRow.date)).length := by
      rw [← List.length_map _ (baseAgg (mergeByDate fg t))]
      exact hj
    have hjo : j < (createDailyAggregates fg t).length := by
      rw [hlen2]; exact hjk
    rw [hgetbase j hj hjk, baseAgg_score_isSome] at hpj
    have hkfg := (group_score_iff (List.get_mem _ j hjk)).mp hpj
    refine ⟨j, by omega, hjo, ?_⟩
    rw [proj_get DailyRow.date _ _ (daily_map_date fg t) j hjo hjk]
    exact hkfg
  · rintro ⟨j, hji, hjo, hdj⟩
    have hjk : j < (sortedKeys ((mergeByDate fg t).filterMap
        MergedRow.date)).length := by
      rw [← hlen2]; exact hjo
    have hj : j < (((sortedKeys ((mergeByDate fg t).filterMap
        MergedRow.date)).map (baseAgg (mergeByDate fg t)))).length := by
      rw [List.length_map]
      exact hjk
    rw [proj_get DailyRow.date _ _ (daily_map_date fg t) j hjo hjk] at hdj
    have hany := (group_score_iff (List.get_mem _ j hjk)).mpr hdj
    rw [h1, h2]
    apply (any_take_iff _ _ (i + 1)).mpr
    refine ⟨j, by omega, hj, ?_⟩
    rw [hgetbase j hj hjk, baseAgg_score_isSome]
    exact hany

/-- C1 counterexample: in the two-day example the second day has no
same-day sentiment record, yet it appears among the correlation inputs
(the rows surviving the sentiment dropna), because its sentiment was
forward-filled from the first day. -/
theorem claim1_counterexample :
    ((⟨2024, 1, 2⟩ : Date) ∉ exC1fg.map FgRow.date) ∧
    (dropnaSentiment (createDailyAggregates exC1fg exC1t)).map DailyRow.date =
      [⟨2024, 1, 1⟩, ⟨2024, 1, 2⟩] := by decide

set_option maxRecDepth 4000 in
/-- C1 witness: the amended characterization applied to the second
aggregate day of the example, whose sentiment is present (by forward fill)
because the first day has a same-day record. -/
theorem claim1_witness :
    ∃ h1 : 1 < (createDailyAggregates exC1fg exC1t).length,
      ((createDailyAggregates exC1fg exC1t).get ⟨1, h1⟩).sentimentScore.isSome
        = true := by
  refine ⟨by decide, ?_⟩
  exact (claim1_theorem exC1fg exC1t 1 (by decide)).mpr
    ⟨0, by omega, by decide, by decide⟩

end Claims

end TraderInsights
